import Mathlib

/-!
Verification of `generate_csvs.py`, a small ETL script that exports four
tables of a pull-request dataset to CSV and derives a fifth, merged
"security-flag" report.

The embedding is shallow:
* Python strings are Lean `String` (lists of characters via `String.data`);
  a value that may be `None`/`NaN` is an `Option`.
* dataset rows are association lists from field names to `PyVal` values;
* a CSV file is a list of lines, each line a list of cell strings
  (CSV quoting is abstracted away: a cell is kept as its text);
* pandas operations (`to_csv`, `read_csv`, `to_numeric`, `sort_values`,
  `drop_duplicates`, `merge`) are modelled by executable functions on these
  lists, following the documented pandas semantics that the script relies on;
* `pd.to_numeric`'s numeric grammar is abstracted as a parameter
  `parse : String → Option ℚ` (a value that fails to parse yields `none`,
  which the script's `fillna(0.0)` turns into `0`).
-/

/-! ## Character and substring toolkit -/

/-- `startsL pat s` : does the character list `s` start with `pat`?
(Self-contained Boolean prefix test.) -/
def startsL : List Char → List Char → Bool
  | [], _ => true
  | _ :: _, [] => false
  | p :: ps, c :: cs => (p == c) && startsL ps cs

/-- `containsSub hay pat` : does `hay` contain `pat` as a contiguous
substring?  This is what a regex alternation search (`re.search`) decides for
a fixed literal pattern. -/
def containsSub : List Char → List Char → Bool
  | [], pat => startsL pat []
  | c :: t, pat => startsL pat (c :: t) || containsSub t pat

/-- `hasSub hay pat` : propositional version of "`pat` occurs as a contiguous
substring of `hay`". -/
def hasSub (hay pat : List Char) : Prop := ∃ a b, hay = a ++ pat ++ b

theorem startsL_iff (pat : List Char) : ∀ s : List Char,
    startsL pat s = true ↔ ∃ r, s = pat ++ r := by
  induction pat with
  | nil =>
      intro s
      simp [startsL]
  | cons p ps ih =>
      intro s
      cases s with
      | nil => simp [startsL]
      | cons c cs =>
          simp only [startsL, Bool.and_eq_true, beq_iff_eq, ih cs]
          constructor
          · rintro ⟨rfl, r, rfl⟩
            exact ⟨r, rfl⟩
          · rintro ⟨r, h⟩
            cases h
            exact ⟨rfl, r, rfl⟩

theorem containsSub_iff (pat : List Char) : ∀ hay : List Char,
    containsSub hay pat = true ↔ hasSub hay pat := by
  intro hay
  induction hay with
  | nil =>
      simp only [containsSub, startsL_iff, hasSub]
      constructor
      · rintro ⟨r, h⟩
        exact ⟨[], r, by simpa using h⟩
      · rintro ⟨a, b, h⟩
        obtain ⟨rfl, rfl, rfl⟩ : a = [] ∧ pat = [] ∧ b = [] := by
          simpa using h.symm
        exact ⟨[], rfl⟩
  | cons c t ih =>
      simp only [containsSub, Bool.or_eq_true, startsL_iff, ih, hasSub]
      constructor
      · rintro (⟨r, h⟩ | ⟨a, b, h⟩)
        · exact ⟨[], r, by simpa using h⟩
        · exact ⟨c :: a, b, by simp [h]⟩
      · rintro ⟨a, b, h⟩
        cases a with
        | nil => exact Or.inl ⟨b, by simpa using h⟩
        | cons x xs =>
            right
            refine ⟨xs, b, ?_⟩
            have := h
            simp only [List.cons_append] at this
            exact (List.cons.injEq .. ▸ this).2

theorem hasSub_cons (c : Char) {t pat : List Char} (h : hasSub t pat) :
    hasSub (c :: t) pat := by
  rcases h with ⟨a, b, rfl⟩
  exact ⟨c :: a, b, rfl⟩

theorem hasSub_append_left (u : List Char) {t pat : List Char}
    (h : hasSub t pat) : hasSub (u ++ t) pat := by
  rcases h with ⟨a, b, rfl⟩
  exact ⟨u ++ a, b, by simp⟩

theorem hasSub_append_right (u : List Char) {t pat : List Char}
    (h : hasSub t pat) : hasSub (t ++ u) pat := by
  rcases h with ⟨a, b, rfl⟩
  exact ⟨a, b ++ u, by simp⟩

/-! ## `clean_diff_text` (source lines 24–31) -/

/-- Python `str.replace(pat, rep)` on character lists: replace the
non-overlapping occurrences of `pat` left to right.  (The source only calls
it with the non-empty patterns `"\t"`, `"\r\n"` and `"\r"`.) -/
def replaceAux (pat rep : List Char) : List Char → List Char
  | [] => []
  | c :: t =>
    if startsL pat (c :: t) then rep ++ replaceAux pat rep (t.drop (pat.length - 1))
    else c :: replaceAux pat rep t
termination_by s => s.length
decreasing_by
  all_goals simp only [List.length_drop, List.length_cons]
  all_goals omega

/-- The character class `[\x09\x0A\x0D\x20-\x7E]` of the cleaning regex
`re.sub(r"[^\x09\x0A\x0D\x20-\x7E]", "", ·)`: characters that are kept. -/
def keepChar (c : Char) : Bool :=
  c == '\x09' || c == '\x0A' || c == '\x0D' ||
    (decide (0x20 ≤ c.toNat) && decide (c.toNat ≤ 0x7E))

/-- `re.sub(r"\n{3,}", "\n\n", ·)`: each maximal run of three or more
newlines becomes exactly two, i.e. the third and later newlines of a run are
dropped.  `n` counts the newlines of the current run seen so far. -/
def collapseAux : Nat → List Char → List Char
  | _, [] => []
  | n, c :: t =>
    if c = '\n' then (if 2 ≤ n then [] else [c]) ++ collapseAux (n + 1) t
    else c :: collapseAux 0 t

/-- The whitespace characters removed by Python `str.strip()`, restricted to
the ASCII range (the regex filter has removed all non-ASCII characters before
`strip` runs, and the other transforms only ever feed it ASCII whitespace). -/
def pyWSb (c : Char) : Bool :=
  c == ' ' || c == '\x09' || c == '\x0A' || c == '\x0B' || c == '\x0C' || c == '\x0D'

/-- Drop the longest suffix whose characters all satisfy `p`. -/
def dropEndWhile (p : Char → Bool) (l : List Char) : List Char :=
  (l.reverse.dropWhile p).reverse

/-- Python `str.strip()` on the characters of a string. -/
def pyStrip (l : List Char) : List Char := dropEndWhile pyWSb (l.dropWhile pyWSb)

/-- The character-level pipeline of `clean_diff_text`: tabs to spaces, CRLF
then CR to LF, drop characters outside `[\x09\x0A\x0D\x20-\x7E]`, collapse
newline runs of length ≥ 3 to two, then strip. -/
def cleanL (s : List Char) : List Char :=
  pyStrip (collapseAux 0
    (List.filter keepChar
      (replaceAux ['\x0D'] ['\x0A']
        (replaceAux ['\x0D', '\x0A'] ['\x0A']
          (replaceAux ['\x09'] [' '] s)))))

/-- `clean_diff_text` (source lines 24–31); `none` models Python `None`,
which is mapped to the empty string. -/
def clean_diff_text : Option String → String
  | none => ""
  | some s => String.mk (cleanL s.data)

/-- Three consecutive newlines, the pattern forbidden in cleaned output. -/
def nl3 : List Char := ['\x0A', '\x0A', '\x0A']

/-- `true` when an optional end character (head or last) is absent or is not
Python whitespace. -/
def endOK : Option Char → Bool
  | some c => !(pyWSb c)
  | none => true

/-- The Boolean invariant claimed for cleaned diff text: only printable
ASCII (`\x20`–`\x7E`) and newline characters, no tab, no carriage return, no
run of three or more newlines, and no leading or trailing whitespace. -/
def printableCheck (s : String) : Bool :=
  s.data.all (fun c => c == '\x0A' || (decide (0x20 ≤ c.toNat) && decide (c.toNat ≤ 0x7E)))
    && !(decide ('\x09' ∈ s.data)) && !(decide ('\x0D' ∈ s.data))
    && !(containsSub s.data nl3)
    && endOK s.data.head? && endOK s.data.getLast?

/-! ## The generic CSV exporter `export_table_to_csv` (source lines 33–61) -/

/-- A Python value as it appears in a dataset row: `None`, a string, an
integer, or a flat dictionary of strings (the shape of the `agent` field). -/
inductive PyVal where
  | vnone
  | vstr (s : String)
  | vint (n : Int)
  | vdict (fields : List (String × String))
deriving DecidableEq

/-- A dataset example: a dictionary from field names to values. -/
abbrev PyRow := List (String × PyVal)

/-- `ex.get(field)`: dictionary lookup, `None` when the key is absent. -/
def pyGet (ex : PyRow) (field : String) : PyVal :=
  match ex.find? (fun p => p.1 == field) with
  | some p => p.2
  | none => PyVal.vnone

/-- One column specification `(out_col, in_field, transform)` as passed to
`export_table_to_csv`. -/
abbrev Colspec := String × String × Option (PyVal → PyVal)

/-- The value put into column `c` for example `ex` (source lines 42–44):
`ex.get(in_field)` when `in_field` is truthy (non-empty), else `None`, then
the transform when one is given. -/
def cellValue (ex : PyRow) (c : Colspec) : PyVal :=
  match c.2.2 with
  | some f => f (if c.2.1 = "" then PyVal.vnone else pyGet ex c.2.1)
  | none => if c.2.1 = "" then PyVal.vnone else pyGet ex c.2.1

/-- Claim C4's literal reading of the cell value: the transform applied to
`ex.get(in_field)`, with only a missing field yielding `None` (no special
case for a falsy `in_field`). -/
def claimCellValue (ex : PyRow) (c : Colspec) : PyVal :=
  match c.2.2 with
  | some f => f (pyGet ex c.2.1)
  | none => pyGet ex c.2.1

/-- `out_row[out_col] = val` on a Python dict: replace in place when the key
exists (a dict update keeps the original position), else append. -/
def dictInsert (d : PyRow) (k : String) (v : PyVal) : PyRow :=
  if k ∈ d.map Prod.fst then d.map (fun p => if p.1 = k then (k, v) else p)
  else d ++ [(k, v)]

/-- Building `out_row` for one example (source lines 40–45). -/
def processRow (cols : List Colspec) (ex : PyRow) : PyRow :=
  cols.foldl (fun acc c => dictInsert acc c.1 (cellValue ex c)) []

/-- Python `str()` of a value; a dictionary renders as `{'k': 'v', ...}`. -/
def pyStr : PyVal → String
  | .vnone => "None"
  | .vstr s => s
  | .vint n => toString n
  | .vdict d =>
      "\x7b" ++ String.intercalate (", ")
        (d.map (fun p => "'" ++ p.1 ++ "': '" ++ p.2 ++ "'")) ++ "\x7d"

/-- The text a cell carries once written by `to_csv`: `None` (pandas `NaN`)
becomes the empty cell, other values their string form. -/
def cellStr : PyVal → String
  | .vnone => ""
  | .vstr s => s
  | .vint n => toString n
  | .vdict d => pyStr (.vdict d)

/-- A CSV file, abstracted as a list of lines, each a list of cell texts. -/
abbrev CsvFile := List (List String)

/-- The columns of `pd.DataFrame(rows)` built from a list of dicts: the
union of the dicts' keys in order of first appearance. -/
def dfColumns (rows : List PyRow) : List String :=
  rows.foldl (fun acc r => acc ++ (r.map Prod.fst).filter (fun k => decide (¬ k ∈ acc))) []

/-- The cell text for column `c` of dict row `r` (a missing key is `NaN`,
which `to_csv` writes as the empty cell). -/
def dfCell (r : PyRow) (c : String) : String :=
  match r.find? (fun p => p.1 == c) with
  | some p => cellStr p.2
  | none => ""

/-- One `pd.DataFrame(rows).to_csv(path, mode="a", header=first)` call:
append the header line (iff `first`) and one line per buffered row. -/
def writeChunk (first : Bool) (rows : List PyRow) : CsvFile :=
  (if first then [dfColumns rows] else [])
    ++ rows.map (fun r => (dfColumns rows).map (dfCell r))

/-- The accumulation loop of `export_table_to_csv` (source lines 34–59):
state `(first_write, rows, file written so far)`, flushing whenever the
buffer reaches `batch_size`, with a final flush when the buffer is
non-empty. -/
def exportLoop (cols : List Colspec) (bs : Nat) :
    List PyRow → Bool → List PyRow → CsvFile → CsvFile
  | [], first, rows, file => if rows = [] then file else file ++ writeChunk first rows
  | ex :: ds, first, rows, file =>
      if bs ≤ rows.length + 1 then
        exportLoop cols bs ds false [] (file ++ writeChunk first (rows ++ [processRow cols ex]))
      else exportLoop cols bs ds first (rows ++ [processRow cols ex]) file

/-- `export_table_to_csv(dataset, _, columns, outpath, batch_size)`
(source lines 33–61), returning the content of the written file. -/
def export_table_to_csv (dataset : List PyRow) (columns : List Colspec)
    (batch_size : Nat) : CsvFile :=
  exportLoop columns batch_size dataset true [] []

/-- The exporter loop instrumented with the list of visited examples, in
visit order. -/
def exportLoopTr (cols : List Colspec) (bs : Nat) :
    List PyRow → Bool → List PyRow → CsvFile → CsvFile × List PyRow
  | [], first, rows, file =>
      ((if rows = [] then file else file ++ writeChunk first rows), [])
  | ex :: ds, first, rows, file =>
      let r :=
        if bs ≤ rows.length + 1 then
          exportLoopTr cols bs ds false [] (file ++ writeChunk first (rows ++ [processRow cols ex]))
        else exportLoopTr cols bs ds first (rows ++ [processRow cols ex]) file
      (r.1, ex :: r.2)

/-- `export_table_to_csv` with its visit trace. -/
def exportTrace (dataset : List PyRow) (columns : List Colspec)
    (batch_size : Nat) : CsvFile × List PyRow :=
  exportLoopTr columns batch_size dataset true [] []

/-- The key list obtained by inserting `names` in order into an empty dict:
first-appearance deduplication. -/
def dedupKeys (names : List String) : List String :=
  names.foldl (fun acc k => if k ∈ acc then acc else acc ++ [k]) []

/-- What a sequence of chunk writes amounts to: nothing when there are no
rows at all, else the header (iff this is the first write) followed by one
line per row, all serialized against the common column list `K`. -/
def emitAll (first : Bool) (K : List String) (rows : List PyRow) : CsvFile :=
  if rows = [] then []
  else (if first then [K] else []) ++ rows.map (fun r => K.map (dfCell r))

/-- Batching-independent normal form of the exporter output: nothing for an
empty dataset, else one header line followed by one line per row. -/
def exportSpec (dataset : List PyRow) (columns : List Colspec) : CsvFile :=
  if dataset = [] then []
  else (columns.map (fun c => c.1))
    :: dataset.map (fun ex => columns.map (fun c => cellStr (cellValue ex c)))

/-- Claim C4 read literally: one header entry and one cell per specification
triple, in specification order, each cell `transform(row.get(in_field))`. -/
def exportClaimC4 (dataset : List PyRow) (columns : List Colspec) : CsvFile :=
  (columns.map (fun c => c.1))
    :: dataset.map (fun ex => columns.map (fun c => cellStr (claimCellValue ex c)))

/-! ## The Task-5 merge (source lines 156–197) -/

/-- `SECURITY_KEYWORDS` (source lines 10–17). -/
def SECURITY_KEYWORDS : List String :=
  ["race", "racy", "buffer", "overflow", "stack", "integer", "signedness", "underflow",
   "improper", "unauthenticated", "gain access", "permission", "cross site", "css", "xss",
   "denial service", "dos", "crash", "deadlock", "injection", "request forgery", "csrf", "xsrf",
   "forged", "security", "vulnerability", "vulnerable", "exploit", "attack", "bypass",
   "backdoor", "threat", "expose", "breach", "violate", "fatal", "blacklist", "overrun",
   "insecure"]

/-- ASCII lower-casing of a string's characters, the effect of the
`re.IGNORECASE` flag on these ASCII-only keywords. -/
def lowerStr (s : String) : List Char := s.data.map Char.toLower

/-- `SEC_KW_REGEX.search(text)` (source lines 19–22): does `text` contain
one of the keywords, case-insensitively? -/
def kwSearch (text : String) : Bool :=
  SECURITY_KEYWORDS.any (fun k => containsSub (lowerStr text) (lowerStr k))

/-- A row of the task-1 CSV as `pd.read_csv(..., dtype=str)` loads it: every
cell a string or `NaN` (`none`). -/
structure T1Row where
  TITLE : Option String
  ID : Option String
  AGENTNAME : Option String
  BODYSTRING : Option String
  REPOID : Option String
  REPOURL : Option String
deriving DecidableEq

/-- A row of the task-3 CSV as `pd.read_csv(..., dtype=str)` loads it. -/
structure T3Row where
  PRID : Option String
  PRTITLE : Option String
  PRREASON : Option String
  PRTYPE : Option String
  CONFIDENCE : Option String
deriving DecidableEq

/-- A task-3 row after `pd.to_numeric(..., errors="coerce").fillna(0.0)` on
`CONFIDENCE` (source lines 162–164). -/
structure T3NumRow where
  PRID : Option String
  PRTITLE : Option String
  PRREASON : Option String
  PRTYPE : Option String
  CONFIDENCE : Rat
deriving DecidableEq

/-- Numeric coercion of one `CONFIDENCE` cell: a missing cell or one that
does not parse as a number becomes `0.0`. -/
def confVal (parse : String → Option Rat) : Option String → Rat
  | none => 0
  | some s => (parse s).getD 0

/-- Coercion of a whole task-3 row. -/
def coerceT3 (parse : String → Option Rat) (r : T3Row) : T3NumRow :=
  { PRID := r.PRID, PRTITLE := r.PRTITLE, PRREASON := r.PRREASON,
    PRTYPE := r.PRTYPE, CONFIDENCE := confVal parse r.CONFIDENCE }

/-- The descending-confidence order used by
`sort_values("CONFIDENCE", ascending=False)`. -/
def confDesc (a b : T3NumRow) : Prop := b.CONFIDENCE ≤ a.CONFIDENCE

instance : DecidableRel confDesc :=
  fun a b => inferInstanceAs (Decidable (b.CONFIDENCE ≤ a.CONFIDENCE))

instance : IsTotal T3NumRow confDesc := ⟨fun a b => le_total b.CONFIDENCE a.CONFIDENCE⟩

instance : IsTrans T3NumRow confDesc := ⟨fun _ _ _ h1 h2 => le_trans h2 h1⟩

/-- `drop_duplicates(subset=["PRID"], keep="first")`: keep the first row for
each `PRID` value, in order; `seen` carries the keys already kept. -/
def dropDupAux (seen : List (Option String)) : List T3NumRow → List T3NumRow
  | [] => []
  | r :: rs =>
      if r.PRID ∈ seen then dropDupAux seen rs
      else r :: dropDupAux (r.PRID :: seen) rs

/-- `df_task_best` (source lines 166–169): coerce, sort by descending
confidence, deduplicate on `PRID` keeping the first row.  (pandas' default
quicksort is not stable, so the order among equal confidences is
unspecified; `insertionSort` realizes one admissible descending sort.) -/
def df_task_best (parse : String → Option Rat) (rows : List T3Row) : List T3NumRow :=
  dropDupAux [] (List.insertionSort confDesc (rows.map (coerceT3 parse)))

/-- A row of `df_merged` (source lines 171–176): the task-1 columns plus the
selected columns of the matching best task-type row. -/
structure MergedRow where
  TITLE : Option String
  ID : Option String
  AGENTNAME : Option String
  BODYSTRING : Option String
  REPOID : Option String
  REPOURL : Option String
  PRID : Option String
  PRTYPE : Option String
  CONFIDENCE : Option Rat
deriving DecidableEq

/-- A left row joined with a matching right row. -/
def matchedRow (l : T1Row) (r : T3NumRow) : MergedRow :=
  { TITLE := l.TITLE, ID := l.ID, AGENTNAME := l.AGENTNAME,
    BODYSTRING := l.BODYSTRING, REPOID := l.REPOID, REPOURL := l.REPOURL,
    PRID := r.PRID, PRTYPE := r.PRTYPE, CONFIDENCE := some r.CONFIDENCE }

/-- An unmatched left row: the right-hand columns are `NaN`. -/
def nullRow (l : T1Row) : MergedRow :=
  { TITLE := l.TITLE, ID := l.ID, AGENTNAME := l.AGENTNAME,
    BODYSTRING := l.BODYSTRING, REPOID := l.REPOID, REPOURL := l.REPOURL,
    PRID := none, PRTYPE := none, CONFIDENCE := none }

/-- `df_pr.merge(df_task_best[...], left_on="ID", right_on="PRID",
how="left")`: for each left row, one output row per matching right row
(pandas matches `NaN` join keys to `NaN`), or one `NaN`-extended row when
there is no match, keeping the left order. -/
def mergeLeft (ls : List T1Row) (rs : List T3NumRow) : List MergedRow :=
  ls.flatMap (fun l =>
    match rs.filter (fun r => decide (r.PRID = l.ID)) with
    | [] => [nullRow l]
    | ms => ms.map (matchedRow l))

/-- The text scanned by `compute_security_flag` (source lines 178–184): the
title plus a trailing space when the title is present, then the body when
present. -/
def securityText (m : MergedRow) : String :=
  (match m.TITLE with | some t => t ++ " " | none => "")
    ++ (match m.BODYSTRING with | some b => b | none => "")

/-- `compute_security_flag(row)` (source lines 178–184). -/
def compute_security_flag (m : MergedRow) : Nat :=
  if kwSearch (securityText m) then 1 else 0

/-- `df_merged` with its `SECURITY` column (source line 186). -/
def df_merged_sec (parse : String → Option Rat) (t1 : List T1Row)
    (t3 : List T3Row) : List (MergedRow × Nat) :=
  (mergeLeft t1 (df_task_best parse t3)).map (fun m => (m, compute_security_flag m))

/-- Claim C1 read literally: `TITLE` and `BODYSTRING` concatenated directly,
with no separating space, a missing field contributing the empty string. -/
def claimText (m : MergedRow) : String :=
  (match m.TITLE with | some t => t | none => "")
    ++ (match m.BODYSTRING with | some b => b | none => "")

/-- One row of the final report `task5_combined_security.csv`
(source lines 188–194). -/
structure T5Row where
  ID : Option String
  AGENT : Option String
  TYPE : Option String
  CONFIDENCE : Option Rat
  SECURITY : Nat
deriving DecidableEq

/-- The final report table (source lines 188–197). -/
def task5_table (parse : String → Option Rat) (t1 : List T1Row)
    (t3 : List T3Row) : List T5Row :=
  (df_merged_sec parse t1 t3).map (fun p =>
    { ID := p.1.ID, AGENT := p.1.AGENTNAME, TYPE := p.1.PRTYPE,
      CONFIDENCE := p.1.CONFIDENCE, SECURITY := p.2 })

/-- The single-match lookup that the left join reduces to once the right
side is unique on `PRID`. -/
def task5Pick (parse : String → Option Rat) (t3 : List T3Row) (l : T1Row) :
    MergedRow :=
  match (df_task_best parse t3).find? (fun r => decide (r.PRID = l.ID)) with
  | some r => matchedRow l r
  | none => nullRow l

/-! ## `main` (source lines 63–200) -/

/-- The `agent_name` transform (source lines 80–83): a dict maps to its
`"name"` entry (default empty), anything else passes through. -/
def agent_name : PyVal → PyVal
  | .vdict d => .vstr (((d.find? (fun p => p.1 == "name")).map (fun p => p.2)).getD "")
  | v => v

/-- The `t1_transform_body` transform (source lines 75–78):
`str(x).replace("\n", " ").strip()`, with `None` mapped to the empty
string. -/
def t1_transform_body (x : PyVal) : PyVal :=
  match x with
  | .vnone => .vstr ""
  | v => .vstr (String.mk (pyStrip ((pyStr v).data.map (fun c => if c = '\n' then ' ' else c))))

/-- `clean_diff_text` as the column transform of task 4; the `patch` field
is a string or null (on any other shape Python would raise an exception,
which is outside this model: such values pass through unchanged). -/
def clean_diff_textPy : PyVal → PyVal
  | .vnone => .vstr ""
  | .vstr s => .vstr (clean_diff_text (some s))
  | v => v

/-- Task-1 column specifications (source lines 90–97). -/
def t1cols : List Colspec :=
  [("TITLE", "title", none), ("ID", "id", none),
   ("AGENTNAME", "agent", some agent_name),
   ("BODYSTRING", "body", some t1_transform_body),
   ("REPOID", "repo_id", none), ("REPOURL", "repo_url", none)]

/-- Task-2 column specifications (source lines 108–113). -/
def t2cols : List Colspec :=
  [("REPOID", "id", none), ("LANG", "language", none),
   ("STARS", "stars", none), ("REPOURL", "url", none)]

/-- Task-3 column specifications (source lines 124–130). -/
def t3cols : List Colspec :=
  [("PRID", "id", none), ("PRTITLE", "title", none), ("PRREASON", "reason", none),
   ("PRTYPE", "type", none), ("CONFIDENCE", "confidence", none)]

/-- Task-4 column specifications (source lines 141–151). -/
def t4cols : List Colspec :=
  [("PRID", "pr_id", none), ("PRSHA", "sha", none),
   ("PRCOMMITMESSAGE", "message", none), ("PRFILE", "filename", none),
   ("PRSTATUS", "status", none), ("PRADDS", "additions", none),
   ("PRDELSS", "deletions", none), ("PRCHANGECOUNT", "changes", none),
   ("PRDIFF", "patch", some clean_diff_textPy)]

/-- The default `NaN` markers of `pd.read_csv`. -/
def NA_VALUES : List String :=
  ["", "#N/A", "#N/A N/A", "#NA", "-1.#IND", "-1.#QNAN", "-NaN", "-nan",
   "1.#IND", "1.#QNAN", "<NA>", "N/A", "NA", "NULL", "NaN", "None", "n/a",
   "nan", "null"]

/-- One cell as `read_csv(..., dtype=str)` loads it: `NaN` markers (in
particular the empty cell) become `NaN`. -/
def readCell (s : String) : Option String := if s ∈ NA_VALUES then none else some s

/-- Field `c` of data line `row` under header line `hdr`. -/
def readField (hdr row : List String) (c : String) : Option String :=
  match hdr.findIdx? (fun k => k == c) with
  | some i => readCell (row.getD i (""))
  | none => none

/-- `pd.read_csv(t1_path, dtype=str)` on our file abstraction. -/
def readT1 (file : CsvFile) : List T1Row :=
  match file with
  | [] => []
  | hdr :: rows =>
      rows.map (fun r =>
        { TITLE := readField hdr r ("TITLE"), ID := readField hdr r ("ID"),
          AGENTNAME := readField hdr r ("AGENTNAME"),
          BODYSTRING := readField hdr r ("BODYSTRING"),
          REPOID := readField hdr r ("REPOID"), REPOURL := readField hdr r ("REPOURL") })

/-- `pd.read_csv(t3_path, dtype=str)` on our file abstraction. -/
def readT3 (file : CsvFile) : List T3Row :=
  match file with
  | [] => []
  | hdr :: rows =>
      rows.map (fun r =>
        { PRID := readField hdr r ("PRID"), PRTITLE := readField hdr r ("PRTITLE"),
          PRREASON := readField hdr r ("PRREASON"), PRTYPE := readField hdr r ("PRTYPE"),
          CONFIDENCE := readField hdr r ("CONFIDENCE") })

/-- One output artifact of `main`: a written file. -/
inductive Artifact where
  | csvFile (path : String) (content : CsvFile)
  | reportFile (path : String) (content : List T5Row)
deriving DecidableEq

/-- The path an artifact is written to. -/
def artifactPath : Artifact → String
  | .csvFile p _ => p
  | .reportFile p _ => p

/-- `main(args)` (source lines 63–200): four table exports, then the merge
computed from the task-1 and task-3 files read back; the written files are
returned in write order.  Dataset loading, directory creation and logging
are I/O outside the model. -/
def runMain (parse : String → Option Rat) (batch_size : Nat)
    (all_pull_request all_repository pr_task_type pr_commit_details : List PyRow) :
    List Artifact :=
  let t1 := export_table_to_csv all_pull_request t1cols batch_size
  let t2 := export_table_to_csv all_repository t2cols batch_size
  let t3 := export_table_to_csv pr_task_type t3cols batch_size
  let t4 := export_table_to_csv pr_commit_details t4cols batch_size
  let df_pr := readT1 t1
  let df_pr_task := readT3 t3
  [Artifact.csvFile ("task1_all_pull_request.csv") t1,
   Artifact.csvFile ("task2_all_repository.csv") t2,
   Artifact.csvFile ("task3_pr_task_type.csv") t3,
   Artifact.csvFile ("task4_pr_commit_details.csv") t4,
   Artifact.reportFile ("task5_combined_security.csv") (task5_table parse df_pr df_pr_task)]

/-! ## Concrete data used by witnesses and counterexamples -/

/-- A numeric parser that accepts nothing (admissible `parse` instance). -/
def parse0 : String → Option Rat := fun _ => none

/-- A tiny numeric parser for the demonstration confidences. -/
def parseDemo : String → Option Rat :=
  fun s => if s = "9" then some ((9 : Rat))
    else if s = "2" then some ((2 : Rat)) else none

/-- A task-1 row whose title/body only match a keyword across the space the
code inserts between them. -/
def t1RowGain : T1Row :=
  { TITLE := some ("gain"), ID := some ("1"), AGENTNAME := some ("bot"),
    BODYSTRING := some ("access"), REPOID := none, REPOURL := none }

/-- A plain task-1 demonstration row. -/
def t1RowA : T1Row :=
  { TITLE := some ("Fix"), ID := some ("7"), AGENTNAME := some ("bot"),
    BODYSTRING := none, REPOID := none, REPOURL := none }

/-- A task-1 row that matches no task-type row. -/
def t1RowB : T1Row :=
  { TITLE := some ("Docs"), ID := some ("8"), AGENTNAME := some ("bot"),
    BODYSTRING := none, REPOID := none, REPOURL := none }

/-- A low-confidence task-type row for PR 7. -/
def t3RowLo : T3Row :=
  { PRID := some ("7"), PRTITLE := none, PRREASON := none,
    PRTYPE := some ("bug"), CONFIDENCE := some ("2") }

/-- A high-confidence task-type row for PR 7. -/
def t3RowHi : T3Row :=
  { PRID := some ("7"), PRTITLE := none, PRREASON := none,
    PRTYPE := some ("feature"), CONFIDENCE := some ("9") }

/-- Column specifications with a duplicated `out_col` name. -/
def cexCols : List Colspec := [("A", "x", none), ("A", "y", none)]

/-- A one-row dataset for the duplicate-column counterexample. -/
def cexDs : List PyRow := [[("x", PyVal.vstr ("1")), ("y", PyVal.vstr ("2"))]]

/-- Well-formed demonstration column specifications. -/
def demoCols : List Colspec := [("A", "x", none), ("B", "y", none)]

/-- A three-row demonstration dataset (with missing fields). -/
def demoDs : List PyRow :=
  [[("x", PyVal.vstr ("1")), ("y", PyVal.vstr ("2"))],
   [("x", PyVal.vstr ("3"))],
   [("y", PyVal.vstr ("4"))]]

/-! ## Lemmas about the cleaning pipeline -/

theorem replaceAux_single (a : Char) (rep : List Char) : ∀ s : List Char,
    replaceAux [a] rep s = s.flatMap (fun c => if c = a then rep else [c]) := by
  intro s
  induction s with
  | nil => simp [replaceAux]
  | cons c t ih =>
      by_cases h : c = a
      · subst h
        simp [replaceAux, startsL, ih]
      · have hs : startsL [a] (c :: t) = false := by
          simp [startsL, beq_iff_eq]
          exact fun e => absurd e.symm h
        simp [replaceAux, hs, h, ih]

theorem replaceAux_notMem (a : Char) (p rep : List Char) :
    ∀ s : List Char, a ∉ s → replaceAux (a :: p) rep s = s := by
  intro s
  induction s with
  | nil => intro _; simp [replaceAux]
  | cons c t ih =>
      intro h
      have hca : ¬(a = c) := fun e => h (e ▸ List.mem_cons_self c t)
      have hs : startsL (a :: p) (c :: t) = false := by
        simp [startsL, beq_iff_eq]
        exact fun e => absurd e hca
      simp [replaceAux, hs, ih (fun hm => h (List.mem_cons_of_mem _ hm))]

theorem mem_replaceAux_bound (pat rep : List Char) (x : Char) :
    ∀ n, ∀ s : List Char, s.length ≤ n → x ∈ replaceAux pat rep s → x ∈ rep ∨ x ∈ s := by
  intro n
  induction n with
  | zero =>
      intro s hs hx
      obtain rfl : s = [] := List.length_eq_zero.mp (Nat.le_zero.mp hs)
      simp [replaceAux] at hx
  | succ n ih =>
      intro s hs hx
      cases s with
      | nil => simp [replaceAux] at hx
      | cons c t =>
          simp only [replaceAux] at hx
          split at hx
          · rcases List.mem_append.mp hx with h | h
            · exact Or.inl h
            · rcases ih _ (by simp only [List.length_drop, List.length_cons] at hs ⊢; omega) h with h | h
              · exact Or.inl h
              · exact Or.inr (List.mem_cons_of_mem _ (List.drop_subset _ _ h))
          · rcases List.mem_cons.mp hx with rfl | h
            · exact Or.inr (List.mem_cons_self ..)
            · rcases ih t (by simpa using Nat.le_of_succ_le_succ hs) h with h | h
              · exact Or.inl h
              · exact Or.inr (List.mem_cons_of_mem _ h)

theorem mem_replaceAux {pat rep : List Char} {x : Char} {s : List Char}
    (h : x ∈ replaceAux pat rep s) : x ∈ rep ∨ x ∈ s :=
  mem_replaceAux_bound pat rep x s.length s (Nat.le_refl _) h

theorem mem_collapseAux (x : Char) : ∀ (t : List Char) (n : Nat),
    x ∈ collapseAux n t → x ∈ t := by
  intro t
  induction t with
  | nil => intro n h; simp [collapseAux] at h
  | cons c t ih =>
      intro n h
      simp only [collapseAux] at h
      split at h
      · rcases List.mem_append.mp h with h | h
        · split at h
          · simp at h
          · rcases List.mem_singleton.mp h with rfl
            exact List.mem_cons_self ..
        · exact List.mem_cons_of_mem _ (ih _ h)
      · rcases List.mem_cons.mp h with rfl | h
        · exact List.mem_cons_self ..
        · exact List.mem_cons_of_mem _ (ih _ h)

theorem hasSub_cons_elim {c : Char} {t pat : List Char} (h : hasSub (c :: t) pat) :
    (∃ r, c :: t = pat ++ r) ∨ hasSub t pat := by
  rcases h with ⟨a, b, hab⟩
  cases a with
  | nil => exact Or.inl ⟨b, by simpa using hab⟩
  | cons x xs =>
      simp only [List.cons_append] at hab
      injection hab with h1 h2
      exact Or.inr ⟨xs, b, h2⟩

theorem hasSub_nl3_drop {c : Char} {u : List Char} (hc : ¬(c = '\n')) :
    ∀ j, j ≤ 2 → hasSub (List.replicate j '\n' ++ c :: u) nl3 → hasSub u nl3 := by
  have step : ∀ {v : List Char}, (∀ r, v ≠ '\n' :: '\n' :: r) →
      hasSub ('\n' :: v) nl3 → hasSub v nl3 := by
    intro v hv h
    rcases hasSub_cons_elim h with ⟨r, hr⟩ | h
    · injection hr with _ h2
      exact absurd h2 (hv r)
    · exact h
  have base : hasSub (c :: u) nl3 → hasSub u nl3 := by
    intro h
    rcases hasSub_cons_elim h with ⟨r, hr⟩ | h
    · injection hr with h1 _
      exact absurd h1 hc
    · exact h
  have hcu : ∀ r, c :: u ≠ '\n' :: '\n' :: r := by
    intro r hr
    injection hr with h1 _
    exact hc h1
  intro j hj
  interval_cases j
  · intro h
    simp only [List.replicate, List.nil_append] at h
    exact base h
  · intro h
    simp only [List.replicate, List.cons_append, List.nil_append] at h
    exact base (step hcu h)
  · intro h
    simp only [List.replicate, List.cons_append, List.nil_append] at h
    have h1 : hasSub ('\n' :: c :: u) nl3 := by
      refine step ?_ h
      intro r hr
      injection hr with _ h2
      injection h2 with h3 _
      exact hc h3
    exact base (step hcu h1)

theorem collapseAux_no_nl3 : ∀ (t : List Char) (n : Nat),
    ¬ hasSub (List.replicate (min n 2) '\n' ++ collapseAux n t) nl3 := by
  intro t
  induction t with
  | nil =>
      intro n h
      rcases h with ⟨a, b, hab⟩
      have := congrArg List.length hab
      simp only [collapseAux, List.append_nil, List.length_replicate, nl3,
        List.length_append, List.length_cons, List.length_nil] at this
      omega
  | cons c t ih =>
      intro n h
      by_cases hc : c = '\n'
      · subst hc
        by_cases hn : 2 ≤ n
        · have e1 : collapseAux n ('\n' :: t) = collapseAux (n + 1) t := by
            simp [collapseAux, hn]
          have e2 : min n 2 = min (n + 1) 2 := by omega
          rw [e1, e2] at h
          exact ih (n + 1) h
        · have e1 : collapseAux n ('\n' :: t) = '\n' :: collapseAux (n + 1) t := by
            simp [collapseAux, hn]
          rw [e1] at h
          have e2 : List.replicate (min n 2) '\n' ++ '\n' :: collapseAux (n + 1) t
              = List.replicate (min (n + 1) 2) '\n' ++ collapseAux (n + 1) t := by
            have e3 : min (n + 1) 2 = min n 2 + 1 := by omega
            rw [e3, List.replicate_succ']
            simp
          rw [e2] at h
          exact ih (n + 1) h
      · have e1 : collapseAux n (c :: t) = c :: collapseAux 0 t := by
          simp [collapseAux, hc]
        rw [e1] at h
        exact ih 0 (by simpa using hasSub_nl3_drop hc (min n 2) (by omega) h)

theorem collapseAux_id : ∀ (t : List Char) (n : Nat),
    ¬ hasSub (List.replicate (min n 2) '\n' ++ t) nl3 → collapseAux n t = t := by
  intro t
  induction t with
  | nil => intro n _; simp [collapseAux]
  | cons c t ih =>
      intro n h
      by_cases hc : c = '\n'
      · subst hc
        by_cases hn : 2 ≤ n
        · exfalso
          apply h
          have e : min n 2 = 2 := by omega
          rw [e]
          exact ⟨[], t, by simp [nl3, List.replicate]⟩
        · have e2 : List.replicate (min n 2) '\n' ++ '\n' :: t
              = List.replicate (min (n + 1) 2) '\n' ++ t := by
            have e3 : min (n + 1) 2 = min n 2 + 1 := by omega
            rw [e3, List.replicate_succ']
            simp
          rw [e2] at h
          simp [collapseAux, hn, ih (n + 1) h]
      · have ht : ¬ hasSub (List.replicate (min 0 2) '\n' ++ t) nl3 := by
          simp only [Nat.zero_min, List.replicate, List.nil_append]
          intro h'
          exact h (hasSub_append_left _ (hasSub_cons c h'))
        simp [collapseAux, hc, ih 0 ht]

theorem dropEndWhile_decomp (p : Char → Bool) (m : List Char) :
    m = dropEndWhile p m ++ (m.reverse.takeWhile p).reverse := by
  conv_lhs => rw [← List.reverse_reverse m]
  conv_lhs => rw [← List.takeWhile_append_dropWhile p m.reverse]
  rw [List.reverse_append]
  rfl

theorem pyStrip_decomp (l : List Char) :
    l = l.takeWhile pyWSb
      ++ (pyStrip l ++ ((l.dropWhile pyWSb).reverse.takeWhile pyWSb).reverse) := by
  conv_lhs => rw [← List.takeWhile_append_dropWhile pyWSb l]
  congr 1
  exact dropEndWhile_decomp pyWSb (l.dropWhile pyWSb)

theorem mem_pyStrip {x : Char} {l : List Char} (h : x ∈ pyStrip l) : x ∈ l := by
  rw [pyStrip_decomp l]
  exact List.mem_append.mpr (Or.inr (List.mem_append.mpr (Or.inl h)))

theorem hasSub_pyStrip {l pat : List Char} (h : hasSub (pyStrip l) pat) :
    hasSub l pat := by
  rw [pyStrip_decomp l]
  exact hasSub_append_left _ (hasSub_append_right _ h)

theorem dropWhile_head_false (p : Char → Bool) :
    ∀ (l : List Char) (c : Char) (t : List Char), l.dropWhile p = c :: t → p c = false := by
  intro l
  induction l with
  | nil => intro c t h; simp at h
  | cons a l ih =>
      intro c t h
      by_cases ha : p a
      · rw [List.dropWhile_cons_of_pos ha] at h
        exact ih c t h
      · rw [List.dropWhile_cons_of_neg ha] at h
        injection h with h1 _
        subst h1
        exact Bool.eq_false_iff.mpr ha

theorem pyStrip_head (l : List Char) :
    ∀ c, (pyStrip l).head? = some c → pyWSb c = false := by
  intro c h
  cases he : pyStrip l with
  | nil => rw [he] at h; simp at h
  | cons x xs =>
      rw [he] at h
      simp only [List.head?_cons, Option.some.injEq] at h
      have hm : l.dropWhile pyWSb
          = pyStrip l ++ ((l.dropWhile pyWSb).reverse.takeWhile pyWSb).reverse :=
        dropEndWhile_decomp pyWSb (l.dropWhile pyWSb)
      rw [he, List.cons_append] at hm
      have hx := dropWhile_head_false pyWSb l x _ hm
      rwa [h] at hx

theorem pyStrip_getLast (l : List Char) :
    ∀ c, (pyStrip l).getLast? = some c → pyWSb c = false := by
  intro c h
  have h' : ((l.dropWhile pyWSb).reverse.dropWhile pyWSb).reverse.getLast? = some c := h
  rw [List.getLast?_reverse] at h'
  cases he : (l.dropWhile pyWSb).reverse.dropWhile pyWSb with
  | nil => rw [he] at h'; simp at h'
  | cons x xs =>
      rw [he] at h'
      simp only [List.head?_cons, Option.some.injEq] at h'
      have hx := dropWhile_head_false pyWSb _ x _ he
      rwa [h'] at hx

theorem dropWhile_dropWhile (p : Char → Bool) (l : List Char) :
    (l.dropWhile p).dropWhile p = l.dropWhile p := by
  cases he : l.dropWhile p with
  | nil => simp
  | cons c t =>
      have hc := dropWhile_head_false p l c t he
      rw [List.dropWhile_cons_of_neg (by simp [hc])]

theorem dropEndWhile_idem (p : Char → Bool) (m : List Char) :
    dropEndWhile p (dropEndWhile p m) = dropEndWhile p m := by
  simp only [dropEndWhile, List.reverse_reverse]
  rw [dropWhile_dropWhile]

theorem pyStrip_dropWhile (l : List Char) :
    (pyStrip l).dropWhile pyWSb = pyStrip l := by
  cases he : pyStrip l with
  | nil => simp
  | cons c t =>
      have hc := pyStrip_head l c (by rw [he]; rfl)
      rw [List.dropWhile_cons_of_neg (by simp [hc])]

theorem pyStrip_idem (l : List Char) : pyStrip (pyStrip l) = pyStrip l := by
  have h1 : pyStrip (pyStrip l) = dropEndWhile pyWSb ((pyStrip l).dropWhile pyWSb) := rfl
  rw [h1, pyStrip_dropWhile l]
  show dropEndWhile pyWSb (dropEndWhile pyWSb (l.dropWhile pyWSb)) = pyStrip l
  rw [dropEndWhile_idem]
  rfl

theorem notMem_replaceAux_single {a : Char} {rep : List Char} (h : a ∉ rep)
    (s : List Char) : a ∉ replaceAux [a] rep s := by
  rw [replaceAux_single]
  intro hm
  rcases List.mem_flatMap.mp hm with ⟨c, _, hc⟩
  by_cases e : c = a
  · rw [if_pos e] at hc
    exact h hc
  · rw [if_neg e] at hc
    exact e (List.mem_singleton.mp hc).symm

theorem cleanL_facts (s : List Char) :
    '\x09' ∉ cleanL s ∧ '\x0D' ∉ cleanL s ∧ (∀ x ∈ cleanL s, keepChar x = true)
      ∧ ¬ hasSub (cleanL s) nl3 := by
  set u1 := replaceAux ['\x09'] [' '] s with hu1
  set u2 := replaceAux ['\x0D', '\x0A'] ['\x0A'] u1 with hu2
  set u3 := replaceAux ['\x0D'] ['\x0A'] u2 with hu3
  set u4 := List.filter keepChar u3 with hu4
  set u5 := collapseAux 0 u4 with hu5
  have h1 : '\x09' ∉ u1 := notMem_replaceAux_single (by decide) s
  have h2 : '\x09' ∉ u2 := by
    intro hm
    rcases mem_replaceAux hm with hm | hm
    · exact absurd (List.mem_singleton.mp hm) (by decide)
    · exact h1 hm
  have h3 : '\x09' ∉ u3 := by
    intro hm
    rcases mem_replaceAux hm with hm | hm
    · exact absurd (List.mem_singleton.mp hm) (by decide)
    · exact h2 hm
  have h3d : '\x0D' ∉ u3 := notMem_replaceAux_single (by decide) u2
  have h4 : '\x09' ∉ u4 := fun hm => h3 (List.mem_filter.mp hm).1
  have h4d : '\x0D' ∉ u4 := fun hm => h3d (List.mem_filter.mp hm).1
  have h4k : ∀ x ∈ u4, keepChar x = true := fun x hm => (List.mem_filter.mp hm).2
  have h5 : '\x09' ∉ u5 := fun hm => h4 (mem_collapseAux _ _ _ hm)
  have h5d : '\x0D' ∉ u5 := fun hm => h4d (mem_collapseAux _ _ _ hm)
  have h5k : ∀ x ∈ u5, keepChar x = true := fun x hm => h4k x (mem_collapseAux _ _ _ hm)
  have h5n : ¬ hasSub u5 nl3 := by
    have h := collapseAux_no_nl3 u4 0
    simpa [hu5] using h
  have hcl : cleanL s = pyStrip u5 := rfl
  refine ⟨?_, ?_, ?_, ?_⟩
  · rw [hcl]; exact fun hm => h5 (mem_pyStrip hm)
  · rw [hcl]; exact fun hm => h5d (mem_pyStrip hm)
  · rw [hcl]; exact fun x hm => h5k x (mem_pyStrip hm)
  · rw [hcl]; exact fun hs => h5n (hasSub_pyStrip hs)

theorem cleanL_idem (s : List Char) : cleanL (cleanL s) = cleanL s := by
  obtain ⟨h09, h0D, hkeep, hnl3⟩ := cleanL_facts s
  have e1 : replaceAux ['\x09'] [' '] (cleanL s) = cleanL s :=
    replaceAux_notMem '\x09' [] [' '] (cleanL s) h09
  have e2 : replaceAux ['\x0D', '\x0A'] ['\x0A'] (cleanL s) = cleanL s :=
    replaceAux_notMem '\x0D' ['\x0A'] ['\x0A'] (cleanL s) h0D
  have e3 : replaceAux ['\x0D'] ['\x0A'] (cleanL s) = cleanL s :=
    replaceAux_notMem '\x0D' [] ['\x0A'] (cleanL s) h0D
  have e4 : List.filter keepChar (cleanL s) = cleanL s := List.filter_eq_self.mpr hkeep
  have e5 : collapseAux 0 (cleanL s) = cleanL s := by
    apply collapseAux_id
    simpa using hnl3
  show pyStrip (collapseAux 0 (List.filter keepChar (replaceAux ['\x0D'] ['\x0A']
    (replaceAux ['\x0D', '\x0A'] ['\x0A'] (replaceAux ['\x09'] [' '] (cleanL s)))))) = cleanL s
  rw [e1, e2, e3, e4, e5]
  exact pyStrip_idem _

/-- Claim C8: `clean_diff_text` is idempotent — cleaning an already-cleaned
string changes nothing. -/
theorem clean_diff_text_idem (s : String) :
    clean_diff_text (some (clean_diff_text (some s))) = clean_diff_text (some s) := by
  show String.mk (cleanL (String.mk (cleanL s.data)).data) = String.mk (cleanL s.data)
  have hd : (String.mk (cleanL s.data)).data = cleanL s.data := rfl
  rw [hd]
  exact congrArg String.mk (cleanL_idem s.data)

/-- Claim C9: every output of `clean_diff_text` consists of printable ASCII
and newlines only, has no tab, no carriage return, no run of three or more
newlines, and no leading or trailing whitespace. -/
theorem clean_diff_text_printable (s : String) :
    printableCheck (clean_diff_text (some s)) = true := by
  obtain ⟨h09, h0D, hkeep, hnl3⟩ := cleanL_facts s.data
  have hdata : (clean_diff_text (some s)).data = cleanL s.data := rfl
  have c1 : (cleanL s.data).all
      (fun c => c == '\x0A' || (decide (0x20 ≤ c.toNat) && decide (c.toNat ≤ 0x7E)))
      = true := by
    rw [List.all_eq_true]
    intro c hc
    have hk := hkeep c hc
    have h9 : ¬(c = '\x09') := fun e => h09 (e ▸ hc)
    have hD : ¬(c = '\x0D') := fun e => h0D (e ▸ hc)
    simp only [keepChar, Bool.or_eq_true, beq_iff_eq, Bool.and_eq_true,
      decide_eq_true_eq] at hk
    rcases hk with ((h | h) | h) | h
    · exact absurd h h9
    · simp [h]
    · exact absurd h hD
    · simp [h.1, h.2]
  have c2 : decide ('\x09' ∈ cleanL s.data) = false := decide_eq_false h09
  have c3 : decide ('\x0D' ∈ cleanL s.data) = false := decide_eq_false h0D
  have c4 : containsSub (cleanL s.data) nl3 = false := by
    cases hb : containsSub (cleanL s.data) nl3 with
    | false => rfl
    | true => exact absurd ((containsSub_iff nl3 (cleanL s.data)).mp hb) hnl3
  have c5 : endOK (cleanL s.data).head? = true := by
    cases hh : (cleanL s.data).head? with
    | none => rfl
    | some c =>
        have hp : pyWSb c = false := pyStrip_head (collapseAux 0 (List.filter keepChar
          (replaceAux ['\x0D'] ['\x0A'] (replaceAux ['\x0D', '\x0A'] ['\x0A']
            (replaceAux ['\x09'] [' '] s.data))))) c hh
        simp [endOK, hp]
  have c6 : endOK (cleanL s.data).getLast? = true := by
    cases hh : (cleanL s.data).getLast? with
    | none => rfl
    | some c =>
        have hp : pyWSb c = false := pyStrip_getLast (collapseAux 0 (List.filter keepChar
          (replaceAux ['\x0D'] ['\x0A'] (replaceAux ['\x0D', '\x0A'] ['\x0A']
            (replaceAux ['\x09'] [' '] s.data))))) c hh
        simp [endOK, hp]
  simp only [printableCheck, hdata, c1, c2, c3, c4, c5, c6]
  rfl

/-- Claim C10: the field transforms map a missing value to the empty string
rather than failing: `clean_diff_text(None) = ""` and
`t1_transform_body(None) = ""`. -/
theorem transforms_none_to_empty :
    clean_diff_text none = "" ∧ t1_transform_body PyVal.vnone = PyVal.vstr ""
      ∧ clean_diff_textPy PyVal.vnone = PyVal.vstr "" :=
  ⟨rfl, rfl, rfl⟩

/-! ## Lemmas about the exporter -/

theorem dictInsert_keys (d : PyRow) (k : String) (v : PyVal) :
    (dictInsert d k v).map Prod.fst
      = if k ∈ d.map Prod.fst then d.map Prod.fst else d.map Prod.fst ++ [k] := by
  by_cases h : k ∈ d.map Prod.fst
  · rw [if_pos h]
    simp only [dictInsert, if_pos h, List.map_map]
    apply List.map_congr_left
    intro p _
    by_cases hp : p.1 = k
    · simp [hp]
    · simp [hp]
  · rw [if_neg h]
    simp [dictInsert, h]

theorem foldl_dictInsert_keys (ex : PyRow) : ∀ (cols : List Colspec) (d : PyRow),
    (cols.foldl (fun acc c => dictInsert acc c.1 (cellValue ex c)) d).map Prod.fst
      = (cols.map (fun c => c.1)).foldl
          (fun acc k => if k ∈ acc then acc else acc ++ [k]) (d.map Prod.fst) := by
  intro cols
  induction cols with
  | nil => intro d; simp
  | cons c cs ih =>
      intro d
      simp only [List.foldl_cons, List.map_cons]
      rw [ih]
      congr 1
      exact dictInsert_keys d c.1 _

theorem processRow_keys (cols : List Colspec) (ex : PyRow) :
    (processRow cols ex).map Prod.fst = dedupKeys (cols.map (fun c => c.1)) := by
  unfold processRow dedupKeys
  simpa using foldl_dictInsert_keys ex cols []

theorem dfColumns_fold_const (K : List String) : ∀ rows : List PyRow,
    (∀ r ∈ rows, r.map Prod.fst = K) →
    rows.foldl (fun acc r => acc ++ (r.map Prod.fst).filter (fun k => decide (¬ k ∈ acc))) K
      = K := by
  intro rows
  induction rows with
  | nil => intro _; rfl
  | cons r rs ih =>
      intro h
      simp only [List.foldl_cons]
      have hr : r.map Prod.fst = K := h r (List.mem_cons_self ..)
      have hstep : K ++ (r.map Prod.fst).filter (fun k => decide (¬ k ∈ K)) = K := by
        rw [hr]
        have hnil : K.filter (fun k => decide (¬ k ∈ K)) = [] := by
          rw [List.filter_eq_nil_iff]
          intro a ha
          simp [ha]
        simp [hnil]
      rw [hstep]
      exact ih (fun r hm => h r (List.mem_cons_of_mem _ hm))

theorem dfColumns_uniform (K : List String) (rows : List PyRow)
    (h : ∀ r ∈ rows, r.map Prod.fst = K) (hne : rows ≠ []) : dfColumns rows = K := by
  cases rows with
  | nil => exact absurd rfl hne
  | cons r rs =>
      unfold dfColumns
      simp only [List.foldl_cons]
      have hr : r.map Prod.fst = K := h r (List.mem_cons_self ..)
      have h0 : ([] : List String)
          ++ (r.map Prod.fst).filter (fun k => decide (¬ k ∈ ([] : List String))) = K := by
        rw [hr]
        simp
      rw [h0]
      exact dfColumns_fold_const K rs (fun r hm => h r (List.mem_cons_of_mem _ hm))

theorem emitAll_false (K : List String) (rows : List PyRow) :
    emitAll false K rows = rows.map (fun r => K.map (dfCell r)) := by
  unfold emitAll
  by_cases h : rows = []
  · subst h; simp
  · rw [if_neg h]; simp

theorem exportLoop_emit (cols : List Colspec) (bs : Nat) : ∀ (ds : List PyRow)
    (first : Bool) (rows : List PyRow) (file : CsvFile),
    (∀ r ∈ rows, r.map Prod.fst = dedupKeys (cols.map (fun c => c.1))) →
    exportLoop cols bs ds first rows file
      = file ++ emitAll first (dedupKeys (cols.map (fun c => c.1)))
          (rows ++ ds.map (processRow cols)) := by
  intro ds
  induction ds with
  | nil =>
      intro first rows file h
      simp only [exportLoop, List.map_nil, List.append_nil]
      by_cases hr : rows = []
      · subst hr
        simp [emitAll]
      · rw [if_neg hr]
        unfold emitAll writeChunk
        rw [if_neg hr, dfColumns_uniform _ rows h hr]
  | cons ex ds ih =>
      intro first rows file h
      have hx : (processRow cols ex).map Prod.fst = dedupKeys (cols.map (fun c => c.1)) :=
        processRow_keys cols ex
      have h' : ∀ r ∈ rows ++ [processRow cols ex],
          r.map Prod.fst = dedupKeys (cols.map (fun c => c.1)) := by
        intro r hm
        rcases List.mem_append.mp hm with hm | hm
        · exact h r hm
        · rw [List.mem_singleton.mp hm]
          exact hx
      have hne : rows ++ [processRow cols ex] ≠ [] := by simp
      have harr : rows ++ List.map (processRow cols) (ex :: ds)
          = (rows ++ [processRow cols ex]) ++ ds.map (processRow cols) := by
        simp
      simp only [exportLoop]
      split
      · rw [ih false [] _ (by intro r hm; simp at hm)]
        rw [emitAll_false]
        unfold writeChunk
        rw [dfColumns_uniform _ _ h' hne]
        have hemit : emitAll first (dedupKeys (cols.map (fun c => c.1)))
            ((rows ++ [processRow cols ex]) ++ ds.map (processRow cols))
            = (if first then [dedupKeys (cols.map (fun c => c.1))] else [])
              ++ ((rows ++ [processRow cols ex]) ++ ds.map (processRow cols)).map
                  (fun r => (dedupKeys (cols.map (fun c => c.1))).map (dfCell r)) := by
          unfold emitAll
          rw [if_neg (fun hc => hne (List.append_eq_nil.mp hc).1)]
        rw [harr, hemit]
        simp [List.map_append, List.append_assoc]
      · rw [ih first (rows ++ [processRow cols ex]) file h', harr]

theorem export_emit (ds : List PyRow) (cols : List Colspec) (bs : Nat) :
    export_table_to_csv ds cols bs
      = emitAll true (dedupKeys (cols.map (fun c => c.1))) (ds.map (processRow cols)) := by
  unfold export_table_to_csv
  rw [exportLoop_emit cols bs ds true [] [] (by intro r hm; simp at hm)]
  simp

theorem dedupKeys_fold_eq : ∀ (names acc : List String),
    (∀ k ∈ names, k ∉ acc) → names.Nodup →
    names.foldl (fun acc k => if k ∈ acc then acc else acc ++ [k]) acc = acc ++ names := by
  intro names
  induction names with
  | nil => intro acc _ _; simp
  | cons k ks ih =>
      intro acc hdis hnd
      simp only [List.foldl_cons]
      rw [if_neg (hdis k (List.mem_cons_self ..))]
      rw [ih (acc ++ [k]) ?_ (List.nodup_cons.mp hnd).2]
      · simp
      · intro x hx hmem
        rcases List.mem_append.mp hmem with hm | hm
        · exact hdis x (List.mem_cons_of_mem _ hx) hm
        · have hxk : x = k := List.mem_singleton.mp hm
          exact (List.nodup_cons.mp hnd).1 (hxk ▸ hx)

theorem dedupKeys_self (names : List String) (h : names.Nodup) :
    dedupKeys names = names := by
  unfold dedupKeys
  simpa using dedupKeys_fold_eq names [] (by simp) h

theorem processRow_nodup_aux (ex : PyRow) : ∀ (cols : List Colspec) (d : PyRow),
    (∀ c ∈ cols, c.1 ∉ d.map Prod.fst) → (cols.map (fun c => c.1)).Nodup →
    cols.foldl (fun acc c => dictInsert acc c.1 (cellValue ex c)) d
      = d ++ cols.map (fun c => (c.1, cellValue ex c)) := by
  intro cols
  induction cols with
  | nil => intro d _ _; simp
  | cons c cs ih =>
      intro d hdis hnd
      simp only [List.map_cons, List.nodup_cons] at hnd
      have hnd' := hnd
      simp only [List.foldl_cons, List.map_cons]
      have hc : c.1 ∉ d.map Prod.fst := hdis c (List.mem_cons_self ..)
      have hins : dictInsert d c.1 (cellValue ex c) = d ++ [(c.1, cellValue ex c)] := by
        simp [dictInsert, hc]
      rw [hins, ih (d ++ [(c.1, cellValue ex c)]) ?_ hnd'.2]
      · simp
      · intro c' hc' hmem
        rw [List.map_append] at hmem
        rcases List.mem_append.mp hmem with hm | hm
        · exact hdis c' (List.mem_cons_of_mem _ hc') hm
        · have hm' : c'.1 = c.1 := by simpa using hm
          exact hnd'.1 (hm' ▸ List.mem_map_of_mem (fun c => c.1) hc')

theorem processRow_nodup (ex : PyRow) (cols : List Colspec)
    (hnd : (cols.map (fun c => c.1)).Nodup) :
    processRow cols ex = cols.map (fun c => (c.1, cellValue ex c)) := by
  unfold processRow
  simpa using processRow_nodup_aux ex cols [] (by simp) hnd

theorem find_pair (ex : PyRow) : ∀ (cols : List Colspec),
    (cols.map (fun c => c.1)).Nodup →
    ∀ c ∈ cols, (cols.map (fun c => (c.1, cellValue ex c))).find? (fun p => p.1 == c.1)
      = some (c.1, cellValue ex c) := by
  intro cols
  induction cols with
  | nil => intro _ c hc; simp at hc
  | cons c0 cs ih =>
      intro hnd c hc
      simp only [List.map_cons, List.nodup_cons] at hnd
      have hnd' := hnd
      rcases List.mem_cons.mp hc with rfl | hc
      · simp [List.find?]
      · have hne : (c0.1 == c.1) = false := by
          rw [beq_eq_false_iff_ne]
          intro he
          exact hnd'.1 (he ▸ List.mem_map_of_mem (fun c => c.1) hc)
        simp only [List.map_cons, List.find?, hne]
        exact ih hnd'.2 c hc

theorem dfCell_processRow (ex : PyRow) (cols : List Colspec)
    (hnd : (cols.map (fun c => c.1)).Nodup) :
    ∀ c ∈ cols, dfCell (processRow cols ex) c.1 = cellStr (cellValue ex c) := by
  intro c hc
  rw [processRow_nodup ex cols hnd]
  unfold dfCell
  rw [find_pair ex cols hnd c hc]

/-- Claim C4 (amended): for column specifications with pairwise-distinct
`out_col` names, the exporter writes — after the single header line of the
`out_col` names, and nothing at all for an empty dataset — exactly one line
per input row, in input order, whose cell for `(out_col, in_field, t)` is
the transformed value of the row's `in_field` field (a missing field, or a
falsy empty `in_field`, contributing `None`); no other columns appear. -/
theorem export_table_rows (ds : List PyRow) (cols : List Colspec) (bs : Nat)
    (hnd : (cols.map (fun c => c.1)).Nodup) :
    export_table_to_csv ds cols bs = exportSpec ds cols := by
  rw [export_emit]
  have hK : dedupKeys (cols.map (fun c => c.1)) = cols.map (fun c => c.1) :=
    dedupKeys_self _ hnd
  unfold emitAll exportSpec
  by_cases hds : ds = []
  · subst hds
    simp
  · rw [if_neg (by simpa using hds), if_neg hds, hK]
    rw [if_pos rfl, List.singleton_append, List.map_map]
    congr 1
    apply List.map_congr_left
    intro ex _
    show (cols.map (fun c => c.1)).map (dfCell (processRow cols ex))
      = cols.map (fun c => cellStr (cellValue ex c))
    rw [List.map_map]
    apply List.map_congr_left
    intro c hc
    exact dfCell_processRow ex cols hnd c hc

/-- Witness for claim C4: a concrete three-row export with distinct column
names satisfies the amended description. -/
theorem export_table_rows_witness :
    export_table_to_csv demoDs demoCols 2 = exportSpec demoDs demoCols :=
  export_table_rows demoDs demoCols 2 (by decide)

/-- Counterexample to claim C4 as stated: with the duplicated column name
`"A"`, the output is not one column and cell per specification triple — the
Python dict keeps a single `"A"` column holding the last specification's
value. -/
theorem export_table_rows_cex :
    export_table_to_csv cexDs cexCols 5 ≠ exportClaimC4 cexDs cexCols := by
  decide

/-- Claim C5 (amended): the exporter's output is independent of the batch
size — for any two batch sizes at least 1 and a non-empty dataset the file
contents are identical, with the header line written exactly once, at the
top; an empty dataset writes nothing at all (not even a header). -/
theorem export_batch_independent (ds : List PyRow) (cols : List Colspec)
    (b1 b2 : Nat) (_h1 : 1 ≤ b1) (_h2 : 1 ≤ b2) (hne : ds ≠ []) :
    export_table_to_csv ds cols b1 = export_table_to_csv ds cols b2
      ∧ export_table_to_csv ds cols b1
          = dedupKeys (cols.map (fun c => c.1))
            :: (ds.map (processRow cols)).map
                (fun r => (dedupKeys (cols.map (fun c => c.1))).map (dfCell r))
      ∧ export_table_to_csv ([] : List PyRow) cols b1 = [] := by
  refine ⟨?_, ?_, ?_⟩
  · rw [export_emit, export_emit]
  · rw [export_emit]
    unfold emitAll
    rw [if_neg (by simpa using hne), if_pos rfl, List.singleton_append]
  · rw [export_emit]
    simp [emitAll]

/-- Witness for claim C5: batch sizes 1 and 3 on a concrete dataset. -/
theorem export_batch_independent_witness :
    export_table_to_csv demoDs demoCols 1 = export_table_to_csv demoDs demoCols 3
      ∧ export_table_to_csv demoDs demoCols 1
          = dedupKeys (demoCols.map (fun c => c.1))
            :: (demoDs.map (processRow demoCols)).map
                (fun r => (dedupKeys (demoCols.map (fun c => c.1))).map (dfCell r))
      ∧ export_table_to_csv ([] : List PyRow) demoCols 1 = [] :=
  export_batch_independent demoDs demoCols 1 3 (by decide) (by decide) (by decide)

/-- Counterexample to claim C5 as stated: for the empty dataset the loop
never calls `to_csv`, so the file holds no line at all — in particular the
header line is not written "exactly once, at the top". -/
theorem export_batch_empty_cex :
    export_table_to_csv ([] : List PyRow) demoCols 1 = ([] : CsvFile)
      ∧ export_table_to_csv ([] : List PyRow) demoCols 2 = ([] : CsvFile) := by
  exact ⟨rfl, rfl⟩

theorem exportLoopTr_spec (cols : List Colspec) (bs : Nat) : ∀ (ds : List PyRow)
    (first : Bool) (rows : List PyRow) (file : CsvFile),
    exportLoopTr cols bs ds first rows file
      = (exportLoop cols bs ds first rows file, ds) := by
  intro ds
  induction ds with
  | nil => intro first rows file; rfl
  | cons ex ds ih =>
      intro first rows file
      simp only [exportLoopTr, exportLoop]
      by_cases hb : bs ≤ rows.length + 1
      · simp only [if_pos hb, ih]
      · simp only [if_neg hb, ih]

/-- Claim C7: the exporter is a single pass — the instrumented loop visits
exactly the input rows, each once and in input order, and computes the same
file as `export_table_to_csv` (which is total on every finite dataset by
construction). -/
theorem export_single_pass (ds : List PyRow) (cols : List Colspec) (bs : Nat) :
    (exportTrace ds cols bs).2 = ds
      ∧ (exportTrace ds cols bs).1 = export_table_to_csv ds cols bs := by
  unfold exportTrace export_table_to_csv
  rw [exportLoopTr_spec]
  exact ⟨rfl, rfl⟩

/-! ## Lemmas about the Task-5 merge -/

theorem mem_dropDupAux {x : T3NumRow} : ∀ (l : List T3NumRow)
    (seen : List (Option String)), x ∈ dropDupAux seen l → x ∈ l := by
  intro l
  induction l with
  | nil => intro seen h; simp [dropDupAux] at h
  | cons r rs ih =>
      intro seen h
      by_cases hs : r.PRID ∈ seen
      · simp only [dropDupAux, if_pos hs] at h
        exact List.mem_cons_of_mem _ (ih _ h)
      · simp only [dropDupAux, if_neg hs] at h
        rcases List.mem_cons.mp h with rfl | h
        · exact List.mem_cons_self ..
        · exact List.mem_cons_of_mem _ (ih _ h)

theorem dropDupAux_notSeen {x : T3NumRow} : ∀ (l : List T3NumRow)
    (seen : List (Option String)), x ∈ dropDupAux seen l → x.PRID ∉ seen := by
  intro l
  induction l with
  | nil => intro seen h; simp [dropDupAux] at h
  | cons r rs ih =>
      intro seen h
      by_cases hs : r.PRID ∈ seen
      · simp only [dropDupAux, if_pos hs] at h
        exact ih _ h
      · simp only [dropDupAux, if_neg hs] at h
        rcases List.mem_cons.mp h with rfl | h
        · exact hs
        · exact fun hx => ih _ h (List.mem_cons_of_mem _ hx)

theorem dropDupAux_count (p : Option String) : ∀ (l : List T3NumRow)
    (seen : List (Option String)), p ∉ seen → p ∈ l.map T3NumRow.PRID →
    ((dropDupAux seen l).filter (fun r => decide (r.PRID = p))).length = 1 := by
  intro l
  induction l with
  | nil => intro seen _ hp; simp at hp
  | cons r rs ih =>
      intro seen hp hmem
      rw [List.map_cons, List.mem_cons] at hmem
      by_cases hs : r.PRID ∈ seen
      · have hne : ¬(p = r.PRID) := fun e => hp (e ▸ hs)
        have hmem' : p ∈ rs.map T3NumRow.PRID := by
          rcases hmem with he | hm
          · exact absurd he hne
          · exact hm
        simp only [dropDupAux, if_pos hs]
        exact ih seen hp hmem'
      · simp only [dropDupAux, if_neg hs]
        by_cases hpr : p = r.PRID
        · have h0 : (dropDupAux (r.PRID :: seen) rs).filter
              (fun x => decide (x.PRID = p)) = [] := by
            rw [List.filter_eq_nil_iff]
            intro a ha
            simp only [decide_eq_true_eq]
            intro he
            apply dropDupAux_notSeen rs (r.PRID :: seen) ha
            rw [he, hpr]
            exact List.mem_cons_self ..
          have hrp : (decide (r.PRID = p)) = true := by simpa using hpr.symm
          simp [List.filter_cons, hrp, h0]
        · have hp2 : p ∉ r.PRID :: seen := by
            intro hm
            rcases List.mem_cons.mp hm with he | hm
            · exact hpr he
            · exact hp hm
          have hmem' : p ∈ rs.map T3NumRow.PRID := by
            rcases hmem with he | hm
            · exact absurd he hpr
            · exact hm
          have hrne : (decide (r.PRID = p)) = false := by
            simp only [decide_eq_false_iff_not]
            exact fun e => hpr e.symm
          simp only [List.filter_cons, hrne, Bool.false_eq_true, if_false]
          exact ih (r.PRID :: seen) hp2 hmem'

theorem dropDupAux_nodup : ∀ (l : List T3NumRow) (seen : List (Option String)),
    ((dropDupAux seen l).map T3NumRow.PRID).Nodup := by
  intro l
  induction l with
  | nil => intro seen; simp [dropDupAux]
  | cons r rs ih =>
      intro seen
      by_cases hs : r.PRID ∈ seen
      · simp only [dropDupAux, if_pos hs]
        exact ih seen
      · simp only [dropDupAux, if_neg hs, List.map_cons, List.nodup_cons]
        refine ⟨?_, ih _⟩
        intro hm
        rcases List.mem_map.mp hm with ⟨x, hx, he⟩
        apply dropDupAux_notSeen rs _ hx
        rw [he]
        exact List.mem_cons_self ..

theorem dropDupAux_max : ∀ (l : List T3NumRow), l.Sorted confDesc →
    ∀ (seen : List (Option String)) (x : T3NumRow), x ∈ dropDupAux seen l →
    ∀ y ∈ l, y.PRID = x.PRID → y.CONFIDENCE ≤ x.CONFIDENCE := by
  intro l
  induction l with
  | nil => intro _ seen x hx; simp [dropDupAux] at hx
  | cons r rs ih =>
      intro hsort seen x hx y hy hpy
      have hsort' := List.sorted_cons.mp hsort
      by_cases hs : r.PRID ∈ seen
      · simp only [dropDupAux, if_pos hs] at hx
        have hxn : x.PRID ∉ seen := dropDupAux_notSeen rs seen hx
        rcases List.mem_cons.mp hy with rfl | hy
        · exact absurd (hpy ▸ hs) hxn
        · exact ih hsort'.2 seen x hx y hy hpy
      · simp only [dropDupAux, if_neg hs] at hx
        rcases List.mem_cons.mp hx with rfl | hx
        · rcases List.mem_cons.mp hy with rfl | hy
          · exact le_refl _
          · exact hsort'.1 y hy
        · have hxn : x.PRID ∉ r.PRID :: seen := dropDupAux_notSeen rs _ hx
          rcases List.mem_cons.mp hy with rfl | hy
          · exfalso
            apply hxn
            rw [← hpy]
            exact List.mem_cons_self ..
          · exact ih hsort'.2 _ x hx y hy hpy

theorem filter_eq_find_of_nodup (v : Option String) : ∀ rs : List T3NumRow,
    (rs.map T3NumRow.PRID).Nodup →
    rs.filter (fun r => decide (r.PRID = v))
      = (rs.find? (fun r => decide (r.PRID = v))).toList := by
  intro rs
  induction rs with
  | nil => intro _; rfl
  | cons r rs ih =>
      intro hnd
      simp only [List.map_cons, List.nodup_cons] at hnd
      by_cases hr : r.PRID = v
      · have h0 : rs.filter (fun x => decide (x.PRID = v)) = [] := by
          rw [List.filter_eq_nil_iff]
          intro a ha
          simp only [decide_eq_true_eq]
          intro he
          apply hnd.1
          have hmm : a.PRID ∈ rs.map T3NumRow.PRID := List.mem_map_of_mem _ ha
          rwa [he, ← hr] at hmm
        simp [List.filter_cons, List.find?_cons, hr, h0]
      · simp only [List.filter_cons, List.find?_cons]
        rw [if_neg (by simpa using hr)]
        have hb : (decide (r.PRID = v)) = false := by simpa using hr
        rw [hb]
        exact ih hnd.2

theorem mergeLeft_eq_map (rs : List T3NumRow)
    (hnd : (rs.map T3NumRow.PRID).Nodup) : ∀ t1 : List T1Row,
    mergeLeft t1 rs = t1.map (fun l =>
      match rs.find? (fun r => decide (r.PRID = l.ID)) with
      | some r => matchedRow l r
      | none => nullRow l) := by
  have hone : ∀ l : T1Row,
      (match rs.filter (fun r => decide (r.PRID = l.ID)) with
        | [] => [nullRow l]
        | ms => ms.map (matchedRow l))
      = [match rs.find? (fun r => decide (r.PRID = l.ID)) with
          | some r => matchedRow l r
          | none => nullRow l] := by
    intro l
    rw [filter_eq_find_of_nodup l.ID rs hnd]
    cases rs.find? (fun r => decide (r.PRID = l.ID)) with
    | none => rfl
    | some r => rfl
  intro t1
  induction t1 with
  | nil => rfl
  | cons l ls ih =>
      show mergeLeft (l :: ls) rs = _
      unfold mergeLeft
      rw [List.flatMap_cons]
      show (match rs.filter (fun r => decide (r.PRID = l.ID)) with
          | [] => [nullRow l]
          | ms => ms.map (matchedRow l)) ++ mergeLeft ls rs = _
      rw [hone l, ih, List.map_cons, List.singleton_append]

/-- Claim C2: the Task-5 merge is a left join of the task-1 table with the
deduplicated task-type table on `ID = PRID`: every task-1 row yields exactly
one merged row, in task-1 order (the single-match lookup `task5Pick`), and a
task-1 row whose `ID` matches no `PRID` still appears, with its `PRTYPE` and
`CONFIDENCE` missing (the final report reads its `TYPE` and `CONFIDENCE`
columns from exactly these fields). -/
theorem task5_left_join (parse : String → Option Rat) (t1 : List T1Row)
    (t3 : List T3Row) :
    mergeLeft t1 (df_task_best parse t3) = t1.map (task5Pick parse t3)
      ∧ (task5_table parse t1 t3).length = t1.length
      ∧ ∀ l : T1Row, (∀ r ∈ df_task_best parse t3, ¬(r.PRID = l.ID)) →
          task5Pick parse t3 l = nullRow l := by
  have hmap : mergeLeft t1 (df_task_best parse t3) = t1.map (task5Pick parse t3) := by
    rw [mergeLeft_eq_map (df_task_best parse t3) (dropDupAux_nodup _ []) t1]
    rfl
  refine ⟨hmap, ?_, ?_⟩
  · unfold task5_table df_merged_sec
    rw [hmap]
    simp
  · intro l hl
    unfold task5Pick
    rw [List.find?_eq_none.mpr (by intro x hx; simpa using hl x hx)]

/-- Witness for claim C2: two task-1 rows against two task-type rows for PR
7; PR 7 joins with the best row, PR 8 joins with nothing. -/
theorem task5_left_join_witness :
    mergeLeft [t1RowA, t1RowB] (df_task_best parseDemo [t3RowLo, t3RowHi])
      = [t1RowA, t1RowB].map (task5Pick parseDemo [t3RowLo, t3RowHi]) :=
  (task5_left_join parseDemo [t1RowA, t1RowB] [t3RowLo, t3RowHi]).1

/-- Claim C3: among the task-3 rows sharing a `PRID`, exactly one survives
`df_task_best`, and it is one whose coerced `CONFIDENCE` (non-parsing values
count as `0.0`) is maximal for that `PRID`. -/
theorem task3_dedup_best (parse : String → Option Rat) (rows : List T3Row)
    (p : Option String) (hp : p ∈ rows.map T3Row.PRID) :
    ((df_task_best parse rows).filter (fun r => decide (r.PRID = p))).length = 1
      ∧ ∀ b ∈ df_task_best parse rows, b.PRID = p →
          b ∈ rows.map (coerceT3 parse)
            ∧ ∀ r ∈ rows, r.PRID = p → confVal parse r.CONFIDENCE ≤ b.CONFIDENCE := by
  have hperm : (List.insertionSort confDesc (rows.map (coerceT3 parse))).Perm
      (rows.map (coerceT3 parse)) := List.perm_insertionSort confDesc _
  constructor
  · apply dropDupAux_count p _ []
    · simp
    · have hmem : p ∈ (rows.map (coerceT3 parse)).map T3NumRow.PRID := by
        rcases List.mem_map.mp hp with ⟨r, hr, he⟩
        exact List.mem_map.mpr
          ⟨coerceT3 parse r, List.mem_map_of_mem _ hr, by simpa [coerceT3] using he⟩
      exact (hperm.map T3NumRow.PRID).mem_iff.mpr hmem
  · intro b hb hbp
    constructor
    · exact hperm.mem_iff.mp (mem_dropDupAux _ [] hb)
    · intro r hr hrp
      have hy : coerceT3 parse r ∈ List.insertionSort confDesc (rows.map (coerceT3 parse)) :=
        hperm.mem_iff.mpr (List.mem_map_of_mem _ hr)
      have hmax := dropDupAux_max (List.insertionSort confDesc (rows.map (coerceT3 parse)))
        (List.sorted_insertionSort confDesc _) [] b hb (coerceT3 parse r) hy
        (by simpa [coerceT3] using hrp.trans hbp.symm)
      simpa [coerceT3] using hmax

/-- Witness for claim C3: of the two rows for PR 7 exactly one survives, and
it carries the maximal coerced confidence. -/
theorem task3_dedup_best_witness :
    ((df_task_best parseDemo [t3RowLo, t3RowHi]).filter
        (fun r => decide (r.PRID = some ("7")))).length = 1
      ∧ ∀ b ∈ df_task_best parseDemo [t3RowLo, t3RowHi], b.PRID = some ("7") →
          b ∈ [t3RowLo, t3RowHi].map (coerceT3 parseDemo)
            ∧ ∀ r ∈ [t3RowLo, t3RowHi], r.PRID = some ("7") →
                confVal parseDemo r.CONFIDENCE ≤ b.CONFIDENCE :=
  task3_dedup_best parseDemo [t3RowLo, t3RowHi] (some ("7")) (by decide)

theorem kwSearch_iff (text : String) :
    kwSearch text = true
      ↔ ∃ k ∈ SECURITY_KEYWORDS, hasSub (lowerStr text) (lowerStr k) := by
  unfold kwSearch
  rw [List.any_eq_true]
  constructor
  · rintro ⟨k, hk, hc⟩
    exact ⟨k, hk, (containsSub_iff _ _).mp hc⟩
  · rintro ⟨k, hk, hc⟩
    exact ⟨k, hk, (containsSub_iff _ _).mpr hc⟩

/-- Claim C1 (amended): for every row of the merged Task-5 table, `SECURITY`
is 1 iff the concatenation of `TITLE`, the separating space the code appends
when `TITLE` is present, and `BODYSTRING` (missing fields contributing the
empty string) contains one of `SECURITY_KEYWORDS` as a substring,
case-insensitively and not whole-word; otherwise `SECURITY` is 0. -/
theorem security_flag_iff (parse : String → Option Rat) (t1 : List T1Row)
    (t3 : List T3Row) (m : MergedRow) (s : Nat)
    (h : (m, s) ∈ df_merged_sec parse t1 t3) :
    (s = 1 ↔ ∃ k ∈ SECURITY_KEYWORDS, hasSub (lowerStr (securityText m)) (lowerStr k))
      ∧ (s = 0 ∨ s = 1) := by
  have hs : s = compute_security_flag m := by
    unfold df_merged_sec at h
    obtain ⟨m', _, he⟩ := List.mem_map.mp h
    obtain ⟨he1, he2⟩ := Prod.ext_iff.mp he
    dsimp only at he1 he2
    rw [← he2, he1]
  subst hs
  unfold compute_security_flag
  by_cases hk : kwSearch (securityText m) = true
  · rw [if_pos hk]
    exact ⟨⟨fun _ => (kwSearch_iff _).mp hk, fun _ => rfl⟩, Or.inr rfl⟩
  · rw [if_neg hk]
    refine ⟨⟨fun h0 => absurd h0 (by decide), ?_⟩, Or.inl rfl⟩
    intro hex
    exact absurd ((kwSearch_iff _).mpr hex) hk

/-- Witness for claim C1 (amended): the "gain"/"access" row gets
`SECURITY = 1`, and the matching keyword exists in the spaced text. -/
theorem security_flag_iff_witness :
    ((1 : Nat) = 1 ↔ ∃ k ∈ SECURITY_KEYWORDS,
        hasSub (lowerStr (securityText (nullRow t1RowGain))) (lowerStr k))
      ∧ ((1 : Nat) = 0 ∨ (1 : Nat) = 1) :=
  security_flag_iff parse0 [t1RowGain] [] (nullRow t1RowGain) 1 (by decide)

/-- Counterexample to claim C1 as stated: with `TITLE = "gain"` and
`BODYSTRING = "access"` the code scans `"gain access "` and sets
`SECURITY = 1`, yet the direct concatenation `"gainaccess"` of the two
fields contains no keyword. -/
theorem security_flag_cex :
    (df_merged_sec parse0 [t1RowGain] []).map Prod.snd = [1]
      ∧ kwSearch (claimText (nullRow t1RowGain)) = false := by
  exact ⟨by decide, by decide⟩

/-- Claim C6: one invocation performs exactly the five steps in a fixed
linear order — the four table exports, then the merge computed from the
task-1 and task-3 files — writing exactly five distinct files, each step
once. -/
theorem main_five_steps (parse : String → Option Rat) (bs : Nat)
    (pr repo tt cd : List PyRow) :
    runMain parse bs pr repo tt cd
      = [Artifact.csvFile ("task1_all_pull_request.csv") (export_table_to_csv pr t1cols bs),
         Artifact.csvFile ("task2_all_repository.csv") (export_table_to_csv repo t2cols bs),
         Artifact.csvFile ("task3_pr_task_type.csv") (export_table_to_csv tt t3cols bs),
         Artifact.csvFile ("task4_pr_commit_details.csv") (export_table_to_csv cd t4cols bs),
         Artifact.reportFile ("task5_combined_security.csv")
           (task5_table parse (readT1 (export_table_to_csv pr t1cols bs))
             (readT3 (export_table_to_csv tt t3cols bs)))]
      ∧ (runMain parse bs pr repo tt cd).length = 5
      ∧ ((runMain parse bs pr repo tt cd).map artifactPath).Nodup := by
  refine ⟨rfl, rfl, ?_⟩
  show ((runMain parse bs pr repo tt cd).map artifactPath).Nodup
  simp only [runMain, List.map_cons, List.map_nil, artifactPath]
  decide
